import Mathlib

/-!
Verification of the RAG-Pipeline repository (HTML Cleaner, Indexer, Query Tool).

The development shallowly embeds the three Python scripts:

* `src/parse_html.py` — a DOM tree (`Node`), the four cleaning steps of
  `clean_html_file` (main-content body replacement, clutter-selector removal,
  junk-string removal, "See also" section removal) and the batch main loop.
* `src/embed_documents.py` — the splitter configuration (`chunk_size = 500`,
  `chunk_overlap = 100`); the splitter itself is third-party library code
  absent from the repository and is modelled from the specification.
* `src/query_with_context.py` — the prompt assembly loop.

Exceptions — bs4 `AttributeError` on a missing `<body>`, and on
`decompose()` reaching a `NavigableString` in the "See also" sibling walk —
propagate out of the un-guarded batch loop and are modelled with
`Except String`.
-/

/-- A parsed HTML node: either a text node (bs4 `NavigableString`) or an
element with a tag name, attribute list and children (bs4 `Tag`).  A parsed
document is a `List Node` (the children of the `BeautifulSoup` root); the
`html.parser` backend inserts no implicit `html`/`body` elements. -/
inductive Node where
  | text (s : String)
  | tag (name : String) (attrs : List (String × String)) (children : List Node)
deriving Repr

mutual

def nodeBeq : Node → Node → Bool
  | .text s, .text t => s == t
  | .tag n a c, .tag n2 a2 c2 => n == n2 && a == a2 && nodeListBeq c c2
  | _, _ => false

def nodeListBeq : List Node → List Node → Bool
  | [], [] => true
  | x :: xs, y :: ys => nodeBeq x y && nodeListBeq xs ys
  | _, _ => false

end

mutual

theorem nodeBeq_iff : ∀ a b : Node, nodeBeq a b = true ↔ a = b
  | .text _, .text _ => by simp [nodeBeq]
  | .text _, .tag _ _ _ => by simp [nodeBeq]
  | .tag _ _ _, .text _ => by simp [nodeBeq]
  | .tag _ _ c, .tag _ _ c2 => by
      simp [nodeBeq, nodeListBeq_iff c c2, and_assoc]

theorem nodeListBeq_iff : ∀ a b : List Node, nodeListBeq a b = true ↔ a = b
  | [], [] => by simp [nodeListBeq]
  | [], _ :: _ => by simp [nodeListBeq]
  | _ :: _, [] => by simp [nodeListBeq]
  | x :: xs, y :: ys => by
      simp [nodeListBeq, nodeBeq_iff x y, nodeListBeq_iff xs ys]

end

instance : DecidableEq Node := fun a b => decidable_of_iff _ (nodeBeq_iff a b)

instance {ε α : Type} [DecidableEq ε] [DecidableEq α] : DecidableEq (Except ε α) :=
  fun x y =>
    match x, y with
    | .ok a, .ok b =>
      if h : a = b then isTrue (by rw [h]) else isFalse (by simp [h])
    | .error e, .error f =>
      if h : e = f then isTrue (by rw [h]) else isFalse (by simp [h])
    | .ok _, .error _ => isFalse (by simp)
    | .error _, .ok _ => isFalse (by simp)

def Node.children : Node → List Node
  | .text _ => []
  | .tag _ _ ch => ch

def Node.isTag : Node → Bool
  | .text _ => false
  | .tag _ _ _ => true

/-- Replace the children of an element; a text node is left unchanged. -/
def Node.withChildren : Node → List Node → Node
  | .text s, _ => .text s
  | .tag n a _, ch => .tag n a ch

def lookupAttr : List (String × String) → String → Option String
  | [], _ => none
  | p :: rest, k => if p.1 = k then some p.2 else lookupAttr rest k

def Node.attr (n : Node) (key : String) : Option String :=
  match n with
  | .text _ => none
  | .tag _ attrs _ => lookupAttr attrs key

/-- CSS-class membership: the `class` attribute is a space-separated token
list (bs4 treats `class` as a multi-valued attribute). -/
def hasClass (n : Node) (c : String) : Bool :=
  n.isTag &&
    match n.attr "class" with
    | none => false
    | some v => (v.splitOn " ").contains c

/-- `soup.find("div", id="mw-content-text")`. -/
def isMainContentDiv : Node → Bool
  | .tag "div" attrs _ => lookupAttr attrs "id" == some "mw-content-text"
  | _ => false

/-- `soup.body`, i.e. `soup.find("body")`. -/
def isBodyTag : Node → Bool
  | .tag "body" _ _ => true
  | _ => false

/-- `soup.find("span", id="See_also")`. -/
def isSeeAlsoSpan : Node → Bool
  | .tag "span" attrs _ => lookupAttr attrs "id" == some "See_also"
  | _ => false

def isH2 : Node → Bool
  | .tag "h2" _ _ => true
  | _ => false

/-- `next_node.name.startswith("h")` from the "See also" loop: any element
whose tag name begins with the character `h` (so `hr` or `header` would also
qualify), matched on the first character of the name. -/
def headingName : Node → Bool
  | .tag nm _ _ =>
    match nm.data with
    | 'h' :: _ => true
    | _ => false
  | .text _ => false

mutual

/-- Document-order (pre-order) search inside a node's descendants, as bs4
`Tag.find`: returns the path (child indices from the given root) and the
node found. -/
def findWithPathNode (p : Node → Bool) : Node → Option (List Nat × Node)
  | .text _ => none
  | .tag _ _ ch => findWithPath p ch

/-- Document-order search over a forest (the children of the soup root):
checks each node before its descendants, left to right, as bs4 `find`. -/
def findWithPath (p : Node → Bool) : List Node → Option (List Nat × Node)
  | [] => none
  | n :: rest =>
    if p n then some ([0], n)
    else
      match findWithPathNode p n with
      | some (q, m) => some (0 :: q, m)
      | none =>
        match findWithPath p rest with
        | some (i :: q, m) => some ((i + 1) :: q, m)
        | _ => none

end

def listGet : Nat → List Node → Option Node
  | _, [] => none
  | 0, n :: _ => some n
  | i + 1, _ :: rest => listGet i rest

def listModify (f : Node → Node) : Nat → List Node → List Node
  | _, [] => []
  | 0, n :: rest => f n :: rest
  | i + 1, n :: rest => n :: listModify f i rest

def listRemove : Nat → List Node → List Node
  | _, [] => []
  | 0, _ :: rest => rest
  | i + 1, n :: rest => n :: listRemove i rest

/-- Node of a document at a (nonempty) child-index path. -/
def getAtList : List Nat → List Node → Option Node
  | [], _ => none
  | i :: p, ns =>
    match listGet i ns, p with
    | some n, [] => some n
    | some n, _ :: _ => getAtList p n.children
    | none, _ => none

/-- Apply `f` to the node at a path, in place. -/
def modifyAtList : List Nat → (Node → Node) → List Node → List Node
  | [], _, ns => ns
  | i :: p, f, ns =>
    match p with
    | [] => listModify f i ns
    | _ :: _ => listModify (fun n => n.withChildren (modifyAtList p f n.children)) i ns

/-- Remove (extract) the node at a path. -/
def removeAtList : List Nat → List Node → List Node
  | [], ns => ns
  | i :: p, ns =>
    match p with
    | [] => listRemove i ns
    | _ :: _ => listModify (fun n => n.withChildren (removeAtList p n.children)) i ns

/-- `bp` is an initial segment of `rp`: the node at `rp` lies in the subtree
of the node at `bp` (or is that node itself). -/
def pathUnder : List Nat → List Nat → Bool
  | [], _ => true
  | _ :: _, [] => false
  | i :: p, j :: q => i == j && pathUnder p q

/-- Step 1 of `clean_html_file` (src/parse_html.py lines 10-13):

    content_root = soup.find("div", id="mw-content-text")
    if content_root:
        soup.body.clear()
        soup.body.append(content_root)

If the content div is found but the document has no `body`, `soup.body` is
`None` and `.clear()` raises `AttributeError`.  Otherwise `clear` empties the
body and `append` moves the content div (extracting it from its current
location by identity) in as the body's only child.  When the div already lay
inside the body, `clear` detached it, so nothing is extracted elsewhere; when
it lay outside the body it is removed from its original position.  (A first
`body` lying strictly inside the content div would make bs4 insert a tag into
its own descendant, a degenerate structure; the theorems below only concern
documents where the content div sits inside the body.) -/
def keepMainContent (doc : List Node) : Except String (List Node) :=
  match findWithPath isMainContentDiv doc with
  | none => Except.ok doc
  | some (rp, root) =>
    match findWithPath isBodyTag doc with
    | none => Except.error "AttributeError: NoneType object has no attribute clear"
    | some (bp, _) =>
      let cleared := modifyAtList bp (fun n => n.withChildren [root]) doc
      Except.ok (if pathUnder bp rp then cleared else removeAtList rp cleared)

mutual

/-- Recursively drop every node matching `p` (bs4 `decompose`/`extract` of all
matches of a selector), keeping the rest of the tree intact. -/
def removeMatchingNode (p : Node → Bool) : Node → Node
  | .text s => .text s
  | .tag n a ch => .tag n a (removeMatchingList p ch)

def removeMatchingList (p : Node → Bool) : List Node → List Node
  | [] => []
  | n :: rest =>
    if p n then removeMatchingList p rest
    else removeMatchingNode p n :: removeMatchingList p rest

end

mutual

/-- Drop every node matching `ptgt` that is a strict descendant of a node
matching `panc` (the `.mw-parser-output .hlist` descendant selector). -/
def removeDescNode (panc ptgt : Node → Bool) (inside : Bool) : Node → Node
  | .text s => .text s
  | .tag n a ch =>
    .tag n a (removeDescList panc ptgt (inside || panc (.tag n a ch)) ch)

def removeDescList (panc ptgt : Node → Bool) (inside : Bool) : List Node → List Node
  | [] => []
  | n :: rest =>
    if inside && ptgt n then removeDescList panc ptgt inside rest
    else removeDescNode panc ptgt inside n :: removeDescList panc ptgt inside rest

end

/-- Step 2 of `clean_html_file` (lines 16-21): decompose all matches of the
selectors `.navbox`, `.printfooter`, `.toc`, `.mw-editsection`,
`.mw-parser-output .hlist`, in that order. -/
def removeClutter (doc : List Node) : List Node :=
  let d1 := removeMatchingList (fun n => hasClass n "navbox") doc
  let d2 := removeMatchingList (fun n => hasClass n "printfooter") d1
  let d3 := removeMatchingList (fun n => hasClass n "toc") d2
  let d4 := removeMatchingList (fun n => hasClass n "mw-editsection") d3
  removeDescList (fun n => hasClass n "mw-parser-output")
    (fun n => hasClass n "hlist") false d4

def startsWithChars : List Char → List Char → Bool
  | [], _ => true
  | _ :: _, [] => false
  | c :: cs, d :: ds => c == d && startsWithChars cs ds

def containsChars (needle : List Char) : List Char → Bool
  | [] => needle.isEmpty
  | d :: ds => startsWithChars needle (d :: ds) || containsChars needle ds

/-- Python `needle in hay` substring containment. -/
def strContains (hay needle : String) : Bool := containsChars needle.data hay.data

/-- The junk-string filter of lines 24-29: a text node whose content contains
any of the three substrings. -/
def isJunkText : Node → Bool
  | .text s =>
    strContains s "wiki." || strContains s "Retrieved from" ||
      strContains s "In other languages:"
  | _ => false

/-- Step 3 of `clean_html_file` (lines 24-29): extract every matching text
node. -/
def removeJunkStrings (doc : List Node) : List Node :=
  removeMatchingList isJunkText doc

/-- The `while current` loop of lines 36-41, walking the siblings that follow
`current` (`cur`, the node the loop is about to decompose).  The no-argument
`find_next_sibling()` is called with `limit=1`, which bypasses bs4's
tags-only fast path, and a criteria-less strainer matches `NavigableString`s
too, so `next_node` is simply the immediate next sibling, text nodes
included (a `NavigableString` has `name` `None`, which is exactly what the
`next_node.name` guard in the source anticipates).  Returned is whether
`cur` itself survives, together with the surviving nodes among the
remaining siblings:

* when the immediate next sibling is an element whose name starts with `h`
  the loop breaks *before* `current.decompose()`, so `cur` survives;
* otherwise `current.decompose()` runs: if `cur` is a text node this raises
  (`decompose` is a `Tag`-only method, `NavigableString` has no such
  attribute); if `cur` is an element it is removed and the walk moves to
  the next sibling;
* when no sibling remains, `current.decompose()` runs one last time and the
  loop ends. -/
def seeAlsoScan (cur : Node) : List Node → Except String (Bool × List Node)
  | [] =>
    if cur.isTag then Except.ok (false, [])
    else Except.error "AttributeError: NavigableString object has no attribute decompose"
  | n :: rest =>
    if headingName n then Except.ok (true, n :: rest)
    else if cur.isTag then
      match seeAlsoScan n rest with
      | Except.error e => Except.error e
      | Except.ok (s, out) => Except.ok (false, if s then n :: out else out)
    else Except.error "AttributeError: NavigableString object has no attribute decompose"

/-- Rebuild a children list in which the "See also" heading sits at index
`i`: the part before the heading is untouched, the heading is dropped (in
the loop, or by the trailing `heading.decompose()` when the loop broke on
its first iteration), and the part after it is what the sibling walk leaves
— unless the walk raised, in which case the error propagates and no output
is written. -/
def applySeeAlsoAt (i : Nat) (ns : List Node) : Except String (List Node) :=
  match listGet i ns with
  | none => Except.ok ns
  | some heading =>
    match seeAlsoScan heading (ns.drop (i + 1)) with
    | Except.error e => Except.error e
    | Except.ok (_, out) => Except.ok (ns.take i ++ out)

/-- Proper prefixes of a path, longest first: the ancestors of the node at
the path, nearest first, as walked by `find_parent`. -/
def ancestorsDesc (p : List Nat) : List (List Nat) :=
  ((List.range p.length).reverse.filter (fun k => k ≠ 0)).map (fun k => p.take k)

def goAnc (doc : List Node) : List (List Nat) → Option (List Nat)
  | [] => none
  | q :: qs =>
    match getAtList q doc with
    | some n => if isH2 n then some q else goAnc doc qs
    | none => goAnc doc qs

/-- `see_also_span.find_parent("h2")`: nearest ancestor named `h2`. -/
def findH2Ancestor (doc : List Node) (sp : List Nat) : Option (List Nat) :=
  goAnc doc (ancestorsDesc sp)

def splitLast : List Nat → Option (List Nat × Nat)
  | [] => none
  | i :: rest =>
    match splitLast rest with
    | some (q, j) => some (i :: q, j)
    | none => some ([], i)

/-- Step 4 of `clean_html_file` (lines 31-43): if a `span#See_also` exists and
has an `h2` ancestor, run the sibling-removal loop at that heading.  The
walk itself can raise (`decompose()` on a text-node sibling); the error
propagates out of `clean_html_file`. -/
def removeSeeAlso (doc : List Node) : Except String (List Node) :=
  match findWithPath isSeeAlsoSpan doc with
  | none => Except.ok doc
  | some (sp, _) =>
    match findH2Ancestor doc sp with
    | none => Except.ok doc
    | some hp =>
      match splitLast hp with
      | none => Except.ok doc
      | some ([], i) => applySeeAlsoAt i doc
      | some (q, i) =>
        match getAtList q doc with
        | none => Except.ok doc
        | some parent =>
          match applySeeAlsoAt i parent.children with
          | Except.error e => Except.error e
          | Except.ok newCh =>
            Except.ok (modifyAtList q (fun n => n.withChildren newCh) doc)

/-- `clean_html_file` on a parsed document: the four cleaning steps in source
order.  The body replacement (missing `body`) and the "See also" walk
(text-node sibling) can raise; an uncaught error aborts the call before the
output file is written. -/
def clean_html_file (doc : List Node) : Except String (List Node) :=
  match keepMainContent doc with
  | Except.error e => Except.error e
  | Except.ok d => removeSeeAlso (removeJunkStrings (removeClutter d))

/-- The main loop of src/parse_html.py (lines 55-67): each parsed `.html`
input is cleaned in turn.  The loop body has no exception handler, so an
error raised for one file propagates and terminates the whole loop. -/
def cleanBatch : List (List Node) → Except String (List (List Node))
  | [] => Except.ok []
  | doc :: rest =>
    match clean_html_file doc with
    | Except.error e => Except.error e
    | Except.ok cleaned =>
      match cleanBatch rest with
      | Except.error e => Except.error e
      | Except.ok others => Except.ok (cleaned :: others)

/-- The fixed instructional preamble of src/query_with_context.py line 16. -/
def preamble : String :=
  "You are an expert. Use the following information to answer the user\x27s question.\n\n"

/-- One retrieved chunk's prompt block, from line 18:
`"[Source " + str(i+1) + "]\n" + doc.page_content + "\n\n"`. -/
def sourceBlock (i : Nat) (content : String) : String :=
  "[Source " ++ toString (i + 1) ++ "]\n" ++ content ++ "\n\n"

/-- The accumulating `for i, doc in enumerate(results)` loop of lines 17-18:
`prompt += f"[Source {i+1}]\n{doc.page_content}\n\n"`. -/
def promptLoop (i : Nat) (acc : String) : List String → String
  | [] => acc
  | c :: rest => promptLoop (i + 1) (acc ++ sourceBlock i c) rest

/-- The rendered prompt of lines 16-19: preamble, the source blocks in
retrieval rank order, then `"User's question: " + query + "\n\nAnswer:"`.
The retrieved results are abstracted as the list of their chunk texts in
rank order. -/
def buildPrompt (query : String) (results : List String) : String :=
  promptLoop 0 preamble results ++ ("User\x27s question: " ++ query ++ "\n\nAnswer:")

def strJoin : List String → String
  | [] => ""
  | s :: rest => s ++ strJoin rest

/-- The prompt format as the specification words it: instructional preamble,
then each retrieved chunk labeled "Source N" (N = rank, starting at 1) in
order, then the literal query, then the "Answer:" cue. -/
def renderSpecPrompt (query : String) (results : List String) : String :=
  preamble ++ strJoin (results.enum.map (fun p => sourceBlock p.1 p.2)) ++
    ("User\x27s question: " ++ query ++ "\n\nAnswer:")

/-- Modelled from the spec: `RecursiveCharacterTextSplitter` is third-party
library code absent from the repository; src/embed_documents.py line 20 only
fixes its configuration (`chunk_size=500, chunk_overlap=100`).  Section 4.2
of the specification describes the splitter: break preferentially on larger
boundaries (paragraph, then line, then word) before falling back to raw
character cuts, then assemble chunks of at most `chunk_size` characters with
a configured overlap carried between consecutive chunks.  The model splits
the text into atomic units (each unit keeps its trailing separator, so a
chunk is a contiguous substring of the document), refining any unit longer
than `chunk_size` at the next smaller boundary.  `splitPar` cuts after each
paragraph break `"\n\n"`. -/
def splitPar : List Char → List Char → List (List Char)
  | acc, '\n' :: '\n' :: rest => (acc.reverse ++ ['\n', '\n']) :: splitPar [] rest
  | acc, c :: rest => splitPar (c :: acc) rest
  | acc, [] => [acc.reverse]

/-- Cut after each line break `"\n"` (see `splitPar`). -/
def splitNl : List Char → List Char → List (List Char)
  | acc, '\n' :: rest => (acc.reverse ++ ['\n']) :: splitNl [] rest
  | acc, c :: rest => splitNl (c :: acc) rest
  | acc, [] => [acc.reverse]

/-- Cut after each space (see `splitPar`). -/
def splitSp : List Char → List Char → List (List Char)
  | acc, ' ' :: rest => (acc.reverse ++ [' ']) :: splitSp [] rest
  | acc, c :: rest => splitSp (c :: acc) rest
  | acc, [] => [acc.reverse]

/-- Last-resort raw character cuts (see `splitPar`). -/
def charUnits (p : List Char) : List (List Char) :=
  p.map (fun c => [c])

/-- Word-level refinement: keep a word-piece at most `cs` long whole,
otherwise cut it into characters (see `splitPar`). -/
def wordUnits (cs : Nat) (p : List Char) : List (List Char) :=
  (((splitSp [] p).filter (fun u => !u.isEmpty)).map
    (fun w => if w.length ≤ cs then [w] else charUnits w)).flatten

/-- Line-level refinement (see `splitPar`). -/
def lineUnits (cs : Nat) (p : List Char) : List (List Char) :=
  (((splitNl [] p).filter (fun u => !u.isEmpty)).map
    (fun l => if l.length ≤ cs then [l] else wordUnits cs l)).flatten

/-- Atomic units of a document: paragraph pieces, refined where they exceed
`cs` (see `splitPar`). -/
def atomize (cs : Nat) (s : List Char) : List (List Char) :=
  (((splitPar [] s).filter (fun u => !u.isEmpty)).map
    (fun p => if p.length ≤ cs then [p] else lineUnits cs p)).flatten

/-- Tag each unit with its character offset in the document. -/
def withOffsets (off : Nat) : List (List Char) → List (Nat × List Char)
  | [] => []
  | u :: rest => (off, u) :: withOffsets (off + u.length) rest

def sumLens : List (Nat × List Char) → Nat
  | [] => 0
  | u :: rest => u.2.length + sumLens rest

def joinUnits : List (Nat × List Char) → List Char
  | [] => []
  | u :: rest => u.2 ++ joinUnits rest

/-- Offset of the first unit of a buffer (0 for an empty buffer). -/
def bufStart : List (Nat × List Char) → Nat
  | [] => 0
  | u :: _ => u.1

/-- Emit the buffered units as one chunk: its offset and its text. -/
def flushChunk (buf : List (Nat × List Char)) : Nat × List Char :=
  (bufStart buf, joinUnits buf)

/-- Modelled from the spec: after a chunk is emitted, the splitter keeps a
tail of the buffered units as the overlap carried into the next chunk — it
drops units from the front while the kept total exceeds the configured
overlap, or while it would leave no room for the incoming unit of length
`ulen` within `cs`. -/
def popBuffer (cs ov ulen : Nat) : List (Nat × List Char) → List (Nat × List Char)
  | [] => []
  | b :: rest =>
    if ov < sumLens (b :: rest) ∨
        (cs < sumLens (b :: rest) + ulen ∧ 0 < sumLens (b :: rest)) then
      popBuffer cs ov ulen rest
    else b :: rest

/-- Modelled from the spec: greedy chunk assembly.  Units are accumulated
while the running chunk stays within `cs`; when the next unit would overflow,
the buffer is emitted as a chunk and the scan continues from the kept overlap
tail plus that unit. -/
def mergeGo (cs ov : Nat) (buf : List (Nat × List Char)) :
    List (Nat × List Char) → List (Nat × List Char)
  | [] =>
    match buf with
    | [] => []
    | b :: bs => [flushChunk (b :: bs)]
  | u :: rest =>
    if cs < sumLens buf + u.2.length ∧ buf ≠ [] then
      flushChunk buf :: mergeGo cs ov (popBuffer cs ov u.2.length buf ++ [u]) rest
    else mergeGo cs ov (buf ++ [u]) rest

/-- Chunks of one document, with their character offsets. -/
def splitChunksPos (cs ov : Nat) (s : List Char) : List (Nat × List Char) :=
  mergeGo cs ov [] (withOffsets 0 (atomize cs s))

/-- `splitter.split_documents` restricted to one document's text, at the
configuration of src/embed_documents.py line 20:
`RecursiveCharacterTextSplitter(chunk_size=500, chunk_overlap=100)`. -/
def split_text (s : String) : List String :=
  (splitChunksPos 500 100 s.data).map (fun c => String.mk c.2)

/-- Structural overlap of two positioned chunks: how far the first chunk's
end interval reaches past the start of the second (0 when they are
disjoint). -/
def chunkOverlap (c c2 : Nat × List Char) : Nat :=
  c.1 + c.2.length - c2.1

theorem listGet_listModify (f : Node → Node) :
    ∀ (i : Nat) (ns : List Node),
      listGet i (listModify f i ns) = (listGet i ns).map f
  | _, [] => by simp [listModify, listGet]
  | 0, _ :: _ => by simp [listModify, listGet]
  | i + 1, _ :: rest => by
      simp [listModify, listGet, listGet_listModify f i rest]

theorem getAt_modifyAt (f : Node → Node) :
    ∀ (p : List Nat) (ns : List Node) (n : Node),
      getAtList p ns = some n →
      getAtList p (modifyAtList p f ns) = some (f n) := by
  intro p
  induction p with
  | nil => intro ns n h; simp [getAtList] at h
  | cons i p ih =>
    intro ns n h
    cases p with
    | nil =>
      simp only [getAtList, modifyAtList] at h ⊢
      rw [listGet_listModify]
      cases e : listGet i ns with
      | none => rw [e] at h; simp at h
      | some m =>
        rw [e] at h
        simp at h
        simp [h]
    | cons j q =>
      simp only [getAtList, modifyAtList] at h ⊢
      rw [listGet_listModify]
      cases e : listGet i ns with
      | none => rw [e] at h; simp at h
      | some m =>
        rw [e] at h
        cases m with
        | text s =>
          simp [Node.children, getAtList, listGet] at h
        | tag nm a ch =>
          simp only [Option.map_some, Node.withChildren, Node.children] at h ⊢
          exact ih ch n h

/-- Claim C7: if the document contains the main-content element (the first
`div` with id `mw-content-text`, found at path `rp`, lying inside the body
found at path `bp`), `clean_html_file`'s first step succeeds and afterwards
the body's children are exactly the content element's subtree; if no
main-content element exists, the body-replacement step returns the document
unchanged. -/
theorem main_content_replacement (doc : List Node) :
    (∀ rp root bp bodyNode,
      findWithPath isMainContentDiv doc = some (rp, root) →
      findWithPath isBodyTag doc = some (bp, bodyNode) →
      getAtList bp doc = some bodyNode →
      pathUnder bp rp = true →
      keepMainContent doc =
          Except.ok (modifyAtList bp (fun n => n.withChildren [root]) doc) ∧
        getAtList bp (modifyAtList bp (fun n => n.withChildren [root]) doc) =
          some (bodyNode.withChildren [root])) ∧
    (findWithPath isMainContentDiv doc = none →
      keepMainContent doc = Except.ok doc) := by
  constructor
  · intro rp root bp bodyNode hf hb hg hu
    refine ⟨?_, getAt_modifyAt _ bp doc bodyNode hg⟩
    simp [keepMainContent, hf, hb, hu]
  · intro h
    simp [keepMainContent, h]

def mainDiv : Node := Node.tag "div" [("id", "mw-content-text")] [Node.text "Paris"]

def mainBody : Node :=
  Node.tag "body" [] [mainDiv, Node.tag "div" [("class", "navbox")] [Node.text "nav"]]

def mainDoc : List Node := [Node.tag "html" [] [mainBody]]

theorem main_content_replacement_witness :
    keepMainContent mainDoc =
        Except.ok (modifyAtList [0, 0] (fun n => n.withChildren [mainDiv]) mainDoc) ∧
      getAtList [0, 0] (modifyAtList [0, 0] (fun n => n.withChildren [mainDiv]) mainDoc) =
        some (mainBody.withChildren [mainDiv]) :=
  (main_content_replacement mainDoc).1 [0, 0, 0] mainDiv [0, 0] mainBody
    (by decide) (by decide) (by decide) (by decide)

/-- Claim C10: when the main-content div exists but the parsed document has
no `body` element, `clean_html_file` raises (`soup.body` is `None`, so
`.clear()` fails with `AttributeError`) and no output is produced; when the
main-content div is absent the body-replacement branch is never taken — that
step returns the document unchanged without raising.  (Later steps can still
raise for independent reasons, e.g. the "See also" walk stepping onto a
text-node sibling; the claim is only about the body-clear branch.) -/
theorem missing_body_raises (doc : List Node) :
    ((∃ pr, findWithPath isMainContentDiv doc = some pr) →
      findWithPath isBodyTag doc = none →
      clean_html_file doc =
        Except.error "AttributeError: NoneType object has no attribute clear") ∧
    (findWithPath isMainContentDiv doc = none →
      keepMainContent doc = Except.ok doc) := by
  constructor
  · rintro ⟨⟨rp, root⟩, hf⟩ hb
    simp [clean_html_file, keepMainContent, hf, hb]
  · intro h
    simp [keepMainContent, h]

def noBodyDoc : List Node := [Node.tag "div" [("id", "mw-content-text")] []]

def noDivDoc : List Node := [Node.tag "p" [] [Node.text "x"]]

theorem missing_body_raises_witness :
    clean_html_file noBodyDoc =
        Except.error "AttributeError: NoneType object has no attribute clear" ∧
      keepMainContent noDivDoc = Except.ok noDivDoc :=
  ⟨(missing_body_raises noBodyDoc).1
      ⟨([0], Node.tag "div" [("id", "mw-content-text")] []), by decide⟩ (by decide),
    (missing_body_raises noDivDoc).2 (by decide)⟩

/-- Claim C8: when the document has no `span` with id `See_also`, the
"See also"-removal step leaves the document unchanged (and raises no
exception). -/
theorem see_also_absent_noop (doc : List Node)
    (h : findWithPath isSeeAlsoSpan doc = none) :
    removeSeeAlso doc = Except.ok doc := by
  simp [removeSeeAlso, h]

def noSeeAlsoDoc : List Node :=
  [Node.tag "body" []
    [Node.tag "h2" [] [Node.text "History"], Node.tag "p" [] [Node.text "text"]]]

theorem see_also_absent_noop_witness :
    removeSeeAlso noSeeAlsoDoc = Except.ok noSeeAlsoDoc :=
  see_also_absent_noop noSeeAlsoDoc (by decide)

def seeAlsoDoc : List Node :=
  [Node.tag "body" []
    [Node.tag "h2" [] [Node.tag "span" [("id", "See_also")] [Node.text "See also"]],
     Node.tag "p" [] [Node.text "a"],
     Node.tag "h2" [] [Node.text "References"]]]

/-- Claim C1 (divergence witness): on a document whose "See also" heading is
followed by one paragraph and then the next heading, the removal loop breaks
before decomposing the paragraph, so `<p>a</p>` survives — the code does not
remove every following sibling up to the next heading. -/
theorem see_also_removal_keeps_last_sibling :
    removeSeeAlso seeAlsoDoc =
      Except.ok
        [Node.tag "body" []
          [Node.tag "p" [] [Node.text "a"],
           Node.tag "h2" [] [Node.text "References"]]] := by decide

def batchBadDoc : List Node := [Node.tag "div" [("id", "mw-content-text")] [Node.text "c"]]

def batchOkDoc : List Node := [Node.tag "body" [] [Node.tag "p" [] [Node.text "ok"]]]

/-- Claim C2 (divergence witness): the Cleaner's main loop has no per-file
exception handling, so when the first file fails (here: content div present
but no `body`) the whole batch aborts with that error and the second file —
which on its own cleans fine — is never processed. -/
theorem cleaner_batch_aborts :
    cleanBatch [batchBadDoc, batchOkDoc] =
        Except.error "AttributeError: NoneType object has no attribute clear" ∧
      cleanBatch [batchOkDoc] = Except.ok [batchOkDoc] := by
  exact ⟨by decide, by decide⟩

theorem promptLoop_eq (rs : List String) :
    ∀ (i : Nat) (acc : String),
      promptLoop i acc rs =
        acc ++ strJoin ((rs.enumFrom i).map (fun p => sourceBlock p.1 p.2)) := by
  induction rs with
  | nil => intro i acc; simp [promptLoop, strJoin, String.append_empty]
  | cons c rest ih =>
    intro i acc
    simp only [promptLoop, List.enumFrom, List.map, strJoin, ih (i + 1)]
    rw [String.append_assoc]

/-- Claim C5: the rendered prompt is exactly the instructional preamble,
then each retrieved chunk labeled "Source N" in retrieval rank order
(N = 1..k), then the literal query, then the "Answer:" cue; in particular
it always ends with "User's question: ", the query, a blank line and
"Answer:". -/
theorem prompt_format (query : String) (results : List String) :
    buildPrompt query results = renderSpecPrompt query results ∧
    ∃ pre, buildPrompt query results =
      pre ++ ("User\x27s question: " ++ query ++ "\n\nAnswer:") := by
  constructor
  · simp [buildPrompt, renderSpecPrompt, promptLoop_eq, List.enum]
  · exact ⟨promptLoop 0 preamble results, rfl⟩

/-- Claim C6: with zero retrieved results (the empty or uninitialized index
case) the prompt is still rendered, with no Source block at all: only the
preamble, the query line and the "Answer:" cue. -/
theorem empty_results_prompt (query : String) :
    buildPrompt query [] =
      preamble ++ ("User\x27s question: " ++ query ++ "\n\nAnswer:") := by
  simp [buildPrompt, promptLoop]

/-- Claim C9: prompt rendering is deterministic — two renderings for the
same query and the same retrieved chunk list are character-for-character
identical. -/
theorem prompt_rendering_deterministic (query : String) (results : List String)
    (p1 p2 : String)
    (h1 : p1 = buildPrompt query results) (h2 : p2 = buildPrompt query results) :
    p1 = p2 :=
  h1.trans h2.symm

theorem prompt_rendering_deterministic_witness :
    buildPrompt "What is the capital of France?" ["Paris is the capital of France."] =
      buildPrompt "What is the capital of France?" ["Paris is the capital of France."] :=
  prompt_rendering_deterministic "What is the capital of France?"
    ["Paris is the capital of France."] _ _ rfl rfl

theorem charUnits_le (cs : Nat) (hcs : 1 ≤ cs) (p : List Char) :
    ∀ u ∈ charUnits p, u.length ≤ cs := by
  intro u hu
  simp only [charUnits, List.mem_map] at hu
  obtain ⟨c, _, rfl⟩ := hu
  simpa using hcs

theorem wordUnits_le (cs : Nat) (hcs : 1 ≤ cs) (p : List Char) :
    ∀ u ∈ wordUnits cs p, u.length ≤ cs := by
  intro u hu
  simp only [wordUnits, List.mem_flatten, List.mem_map, List.mem_filter] at hu
  obtain ⟨l, ⟨w, _, rfl⟩, hu⟩ := hu
  by_cases h : w.length ≤ cs
  · rw [if_pos h] at hu
    simp only [List.mem_singleton] at hu
    exact hu ▸ h
  · rw [if_neg h] at hu
    exact charUnits_le cs hcs w u hu

theorem lineUnits_le (cs : Nat) (hcs : 1 ≤ cs) (p : List Char) :
    ∀ u ∈ lineUnits cs p, u.length ≤ cs := by
  intro u hu
  simp only [lineUnits, List.mem_flatten, List.mem_map, List.mem_filter] at hu
  obtain ⟨l, ⟨w, _, rfl⟩, hu⟩ := hu
  by_cases h : w.length ≤ cs
  · rw [if_pos h] at hu
    simp only [List.mem_singleton] at hu
    exact hu ▸ h
  · rw [if_neg h] at hu
    exact wordUnits_le cs hcs w u hu

theorem atomize_le (cs : Nat) (hcs : 1 ≤ cs) (s : List Char) :
    ∀ u ∈ atomize cs s, u.length ≤ cs := by
  intro u hu
  simp only [atomize, List.mem_flatten, List.mem_map, List.mem_filter] at hu
  obtain ⟨l, ⟨w, _, rfl⟩, hu⟩ := hu
  by_cases h : w.length ≤ cs
  · rw [if_pos h] at hu
    simp only [List.mem_singleton] at hu
    exact hu ▸ h
  · rw [if_neg h] at hu
    exact lineUnits_le cs hcs w u hu

theorem withOffsets_snd_mem :
    ∀ (us : List (List Char)) (off : Nat) (p : Nat × List Char),
      p ∈ withOffsets off us → p.2 ∈ us
  | [], _, p => by simp [withOffsets]
  | u :: rest, off, p => by
      intro h
      simp only [withOffsets, List.mem_cons] at h
      rcases h with h | h
      · simp [h]
      · exact List.mem_cons_of_mem u (withOffsets_snd_mem rest (off + u.length) p h)

theorem sumLens_append :
    ∀ l1 l2 : List (Nat × List Char), sumLens (l1 ++ l2) = sumLens l1 + sumLens l2
  | [], l2 => by simp [sumLens]
  | u :: rest, l2 => by
      simp [sumLens, sumLens_append rest l2]
      omega

theorem joinUnits_length :
    ∀ l : List (Nat × List Char), (joinUnits l).length = sumLens l
  | [] => by simp [joinUnits, sumLens]
  | u :: rest => by
      simp [joinUnits, sumLens, joinUnits_length rest]

theorem popBuffer_spec (cs ov ulen : Nat) :
    ∀ l : List (Nat × List Char),
      sumLens (popBuffer cs ov ulen l) ≤ ov ∧
        (sumLens (popBuffer cs ov ulen l) + ulen ≤ cs ∨
          sumLens (popBuffer cs ov ulen l) = 0) := by
  intro l
  induction l with
  | nil => simp [popBuffer, sumLens]
  | cons b rest ih =>
    rw [popBuffer]
    by_cases h : ov < sumLens (b :: rest) ∨
        (cs < sumLens (b :: rest) + ulen ∧ 0 < sumLens (b :: rest))
    · rw [if_pos h]; exact ih
    · rw [if_neg h]; omega

theorem mergeGo_chunk_le (cs ov : Nat) :
    ∀ (stream buf : List (Nat × List Char)),
      sumLens buf ≤ cs →
      (∀ p ∈ stream, p.2.length ≤ cs) →
      ∀ c ∈ mergeGo cs ov buf stream, c.2.length ≤ cs := by
  intro stream
  induction stream with
  | nil =>
    intro buf hbuf _ c hc
    cases buf with
    | nil => simp [mergeGo] at hc
    | cons b bs =>
      simp only [mergeGo, List.mem_singleton] at hc
      subst hc
      simpa [flushChunk, joinUnits_length] using hbuf
  | cons u rest ih =>
    intro buf hbuf hstream c hc
    have hu : u.2.length ≤ cs := hstream u (by simp)
    have hrest : ∀ p ∈ rest, p.2.length ≤ cs := fun p hp => hstream p (by simp [hp])
    rw [mergeGo] at hc
    by_cases hcond : cs < sumLens buf + u.2.length ∧ buf ≠ []
    · rw [if_pos hcond] at hc
      rcases List.mem_cons.mp hc with h | h
      · subst h
        simpa [flushChunk, joinUnits_length] using hbuf
      · refine ih _ ?_ hrest c h
        have hp := popBuffer_spec cs ov u.2.length buf
        rw [sumLens_append]
        simp only [sumLens]
        omega
    · rw [if_neg hcond] at hc
      refine ih _ ?_ hrest c hc
      rw [sumLens_append]
      simp only [sumLens]
      by_cases hb : buf = []
      · subst hb
        simp only [sumLens] at hbuf ⊢
        omega
      · have : ¬ cs < sumLens buf + u.2.length := fun hlt => hcond ⟨hlt, hb⟩
        omega

/-- Claim C3: every chunk the Indexer's splitter produces from a markdown
document has length at most the configured maximum chunk length, 500
characters. -/
theorem chunk_length_le (s : String) (c : String) (h : c ∈ split_text s) :
    c.length ≤ 500 := by
  simp only [split_text, List.mem_map] at h
  obtain ⟨ch, hch, rfl⟩ := h
  have hunits : ∀ p ∈ withOffsets 0 (atomize 500 s.data), p.2.length ≤ 500 :=
    fun p hp =>
      atomize_le 500 (by omega) s.data p.2 (withOffsets_snd_mem _ 0 p hp)
  have hlen := mergeGo_chunk_le 500 100 _ [] (by simp [sumLens]) hunits ch hch
  simpa [String.length] using hlen

theorem chunk_length_le_witness :
    "hello world" ∈ split_text "hello world" ∧
      ("hello world" : String).length ≤ 500 :=
  ⟨by decide, chunk_length_le "hello world" "hello world" (by decide)⟩

/-- Adjacent positioned units are contiguous: each starts where the previous
one ends. -/
def contiguousU : List (Nat × List Char) → Prop
  | u :: v :: rest => v.1 = u.1 + u.2.length ∧ contiguousU (v :: rest)
  | _ => True

/-- Every pair of adjacent chunks overlaps by at most `ov` characters. -/
def overlapsLe (ov : Nat) : List (Nat × List Char) → Prop
  | c :: c2 :: rest => chunkOverlap c c2 ≤ ov ∧ overlapsLe ov (c2 :: rest)
  | _ => True

theorem contiguousU_of_cons :
    ∀ (x : Nat × List Char) (l : List (Nat × List Char)),
      contiguousU (x :: l) → contiguousU l
  | _, [], _ => trivial
  | _, _ :: _, h => h.2

theorem contiguousU_append_right :
    ∀ l1 l2 : List (Nat × List Char), contiguousU (l1 ++ l2) → contiguousU l2
  | [], _, h => h
  | x :: l1, l2, h =>
      contiguousU_append_right l1 l2 (contiguousU_of_cons x (l1 ++ l2) h)

theorem contiguousU_append_left :
    ∀ l1 l2 : List (Nat × List Char), contiguousU (l1 ++ l2) → contiguousU l1
  | [], _, _ => trivial
  | [_], _, _ => trivial
  | x :: y :: l1, l2, h => by
      rw [List.cons_append, List.cons_append] at h
      exact ⟨h.1, contiguousU_append_left (y :: l1) l2 h.2⟩

theorem contiguousU_split :
    ∀ l1 l2 : List (Nat × List Char), contiguousU (l1 ++ l2) → l2 ≠ [] →
      bufStart l2 = bufStart (l1 ++ l2) + sumLens l1
  | [], l2, _, _ => by simp [sumLens]
  | [a], c :: t, h, _ => by
      rw [List.singleton_append] at h
      simp [bufStart, sumLens, h.1]
  | a :: b :: l1, l2, h, h2 => by
      rw [List.cons_append, List.cons_append] at h
      have ih := contiguousU_split (b :: l1) l2 h.2 h2
      have hb : b.1 = a.1 + a.2.length := h.1
      simp only [bufStart, sumLens, List.cons_append] at ih ⊢
      omega
  | [_], [], _, h2 => absurd rfl h2

theorem popBuffer_suffix (cs ov ulen : Nat) :
    ∀ l : List (Nat × List Char), ∃ l1, l = l1 ++ popBuffer cs ov ulen l
  | [] => ⟨[], rfl⟩
  | b :: rest => by
      rw [popBuffer]
      by_cases h : ov < sumLens (b :: rest) ∨
          (cs < sumLens (b :: rest) + ulen ∧ 0 < sumLens (b :: rest))
      · rw [if_pos h]
        obtain ⟨l1, hl1⟩ := popBuffer_suffix cs ov ulen rest
        exact ⟨b :: l1, by rw [List.cons_append, ← hl1]⟩
      · rw [if_neg h]
        exact ⟨[], rfl⟩

theorem bufStart_append (l1 l2 : List (Nat × List Char)) (h : l1 ≠ []) :
    bufStart (l1 ++ l2) = bufStart l1 := by
  cases l1 with
  | nil => exact absurd rfl h
  | cons a t => simp [bufStart]

theorem mergeGo_head (cs ov : Nat) :
    ∀ (stream buf : List (Nat × List Char)), buf ≠ [] →
      ∃ c t, mergeGo cs ov buf stream = c :: t ∧ c.1 = bufStart buf := by
  intro stream
  induction stream with
  | nil =>
    intro buf hb
    cases buf with
    | nil => exact absurd rfl hb
    | cons b bs => exact ⟨flushChunk (b :: bs), [], by simp [mergeGo], rfl⟩
  | cons u rest ih =>
    intro buf hb
    rw [mergeGo]
    by_cases hcond : cs < sumLens buf + u.2.length ∧ buf ≠ []
    · rw [if_pos hcond]
      exact ⟨flushChunk buf, _, rfl, rfl⟩
    · rw [if_neg hcond]
      obtain ⟨c, t, hm, hc⟩ := ih (buf ++ [u]) (by simp)
      exact ⟨c, t, hm, by rw [hc, bufStart_append buf [u] hb]⟩

theorem mergeGo_overlapsLe (cs ov : Nat) :
    ∀ (stream buf : List (Nat × List Char)),
      contiguousU (buf ++ stream) → overlapsLe ov (mergeGo cs ov buf stream) := by
  intro stream
  induction stream with
  | nil =>
    intro buf _
    cases buf with
    | nil => trivial
    | cons b bs => simp only [mergeGo]; trivial
  | cons u rest ih =>
    intro buf hc
    rw [mergeGo]
    by_cases hcond : cs < sumLens buf + u.2.length ∧ buf ≠ []
    · rw [if_pos hcond]
      obtain ⟨l1, hl1⟩ := popBuffer_suffix cs ov u.2.length buf
      have hc2 : contiguousU ((popBuffer cs ov u.2.length buf ++ [u]) ++ rest) := by
        have h1 : contiguousU (popBuffer cs ov u.2.length buf ++ (u :: rest)) := by
          refine contiguousU_append_right l1 _ ?_
          rw [← List.append_assoc, ← hl1]
          exact hc
        rwa [List.append_cons] at h1
      obtain ⟨c2, t2, hm, hc2head⟩ :=
        mergeGo_head cs ov rest (popBuffer cs ov u.2.length buf ++ [u]) (by simp)
      rw [hm]
      have htail : overlapsLe ov (c2 :: t2) := by
        rw [← hm]
        exact ih _ hc2
      refine ⟨?_, htail⟩
      -- bound the overlap between the flushed chunk and the next chunk head
      have hflush : (flushChunk buf).1 = bufStart buf := rfl
      have hflushlen : (flushChunk buf).2.length = sumLens buf := joinUnits_length buf
      cases hpop : popBuffer cs ov u.2.length buf with
      | nil =>
        have hustart : u.1 = bufStart buf + sumLens buf := by
          have := contiguousU_split buf (u :: rest) hc (by simp)
          rwa [bufStart_append buf (u :: rest) hcond.2] at this
        rw [hpop] at hc2head
        simp only [List.nil_append, bufStart] at hc2head
        simp only [chunkOverlap, hflush, hflushlen, hc2head, hustart]
        omega
      | cons p ps =>
        have hsuffix : buf = l1 ++ (p :: ps) := by rw [hl1, hpop]
        have hcbuf : contiguousU buf := contiguousU_append_left buf (u :: rest) hc
        have hstartp : bufStart (p :: ps) = bufStart buf + sumLens l1 := by
          have := contiguousU_split l1 (p :: ps) (hsuffix ▸ hcbuf) (by simp)
          rwa [← hsuffix] at this
        have hsums : sumLens buf = sumLens l1 + sumLens (p :: ps) := by
          rw [hsuffix, sumLens_append]
        have hple : sumLens (p :: ps) ≤ ov := by
          have := (popBuffer_spec cs ov u.2.length buf).1
          rwa [hpop] at this
        rw [hpop] at hc2head
        rw [bufStart_append (p :: ps) [u] (by simp)] at hc2head
        simp only [chunkOverlap, hflush, hflushlen, hc2head, hstartp]
        omega
    · rw [if_neg hcond]
      refine ih (buf ++ [u]) ?_
      rw [List.append_assoc, List.singleton_append]
      exact hc

theorem overlapsLe_index (ov : Nat) :
    ∀ (l : List (Nat × List Char)) (i : Nat) (c c2 : Nat × List Char),
      overlapsLe ov l → l[i]? = some c → l[i + 1]? = some c2 →
      chunkOverlap c c2 ≤ ov
  | [], i, c, c2 => by simp
  | [x], i, c, c2 => by
      intro _ _ h2
      rcases i with _ | j <;> simp at h2
  | x :: y :: t, 0, c, c2 => by
      intro ho h1 h2
      simp only [List.getElem?_cons_zero, Option.some.injEq] at h1
      simp only [List.getElem?_cons_succ, List.getElem?_cons_zero,
        Option.some.injEq] at h2
      rw [← h1, ← h2]
      exact ho.1
  | x :: y :: t, i + 1, c, c2 => by
      intro ho h1 h2
      rw [List.getElem?_cons_succ] at h1 h2
      exact overlapsLe_index ov (y :: t) i c c2 ho.2 h1 h2

theorem withOffsets_contiguous :
    ∀ (us : List (List Char)) (off : Nat), contiguousU (withOffsets off us)
  | [], _ => trivial
  | [_], off => by simp [withOffsets, contiguousU]
  | u :: u2 :: t, off =>
      ⟨rfl, withOffsets_contiguous (u2 :: t) (off + u.length)⟩

/-- Claim C4 (amended): under the boundary-preferring splitter, consecutive
chunks of a document overlap by at most the configured overlap amount (100
characters); the overlap can fall short of 100 when the kept tail is limited
by unit boundaries. -/
theorem consecutive_chunks_overlap_le (s : String) (i : Nat)
    (c c2 : Nat × List Char)
    (h1 : (splitChunksPos 500 100 s.data)[i]? = some c)
    (h2 : (splitChunksPos 500 100 s.data)[i + 1]? = some c2) :
    chunkOverlap c c2 ≤ 100 := by
  refine overlapsLe_index 100 _ i c c2 ?_ h1 h2
  unfold splitChunksPos
  refine mergeGo_overlapsLe 500 100 _ [] ?_
  simpa using withOffsets_contiguous (atomize 500 s.data) 0

def c4doc : List Char :=
  List.replicate 300 'a' ++ '\n' :: '\n' ::
    (List.replicate 300 'b' ++ '\n' :: '\n' :: List.replicate 300 'c')

def c4text : String := String.mk c4doc

/-- Claim C4 (counterexample): a document of three 300-character paragraphs
splits into three chunks whose first consecutive pair — the second chunk is
not the final one — overlaps by 0 characters, not by exactly 100. -/
theorem consecutive_chunks_overlap_not_exact :
    ¬ (∀ (i : Nat) (c c2 : Nat × List Char),
        (splitChunksPos 500 100 c4doc)[i]? = some c →
        (splitChunksPos 500 100 c4doc)[i + 1]? = some c2 →
        (i + 2 = (splitChunksPos 500 100 c4doc).length ∨
          chunkOverlap c c2 = 100)) := by
  intro h
  have h0 := h 0 (0, List.replicate 300 'a' ++ ['\n', '\n'])
    (302, List.replicate 300 'b' ++ ['\n', '\n'])
    (by set_option maxRecDepth 40000 in decide)
    (by set_option maxRecDepth 40000 in decide)
  rcases h0 with h1 | h2
  · have hlen : (splitChunksPos 500 100 c4doc).length = 3 := by
      set_option maxRecDepth 40000 in decide
    omega
  · have hov : chunkOverlap (0, List.replicate 300 'a' ++ ['\n', '\n'])
        (302, List.replicate 300 'b' ++ ['\n', '\n']) = 0 := by
      set_option maxRecDepth 40000 in decide
    omega

theorem consecutive_chunks_overlap_le_witness :
    (splitChunksPos 500 100 c4text.data)[0]? =
        some (0, List.replicate 300 'a' ++ ['\n', '\n']) ∧
      chunkOverlap (0, List.replicate 300 'a' ++ ['\n', '\n'])
        (302, List.replicate 300 'b' ++ ['\n', '\n']) ≤ 100 :=
  ⟨by set_option maxRecDepth 40000 in decide,
    consecutive_chunks_overlap_le c4text 0 _ _
      (by set_option maxRecDepth 40000 in decide)
      (by set_option maxRecDepth 40000 in decide)⟩
